import Mathlib

/-!
Verification of the tmm (Transfer Matrix Method) library: a shallow
embedding of the 2x2 complex matrix algebra (src/inc/tmm.h), the Bragg
grating engine (src/src/bragg.cc), and the compact material model
(src/inc/cml.h), with theorems settling the specification claims.

Floating-point doubles are modelled as real numbers, complex doubles as
Mathlib complex numbers.
-/

namespace TmmSpec

/-- A 2x2 complex matrix, row major: entries e00 e01 / e10 e11.
Embeds the pointer-to-pointer std complex double matrices of tmm.h. -/
@[ext] structure M2 where
  e00 : ℂ
  e01 : ℂ
  e10 : ℂ
  e11 : ℂ

/-- Standard 2x2 matrix product; embeds damm multiply as used by
matrix_power and Bragg transfer_matrix (row-into-column products). -/
def M2.mul (X Y : M2) : M2 :=
  ⟨X.e00 * Y.e00 + X.e01 * Y.e10,
   X.e00 * Y.e01 + X.e01 * Y.e11,
   X.e10 * Y.e00 + X.e11 * Y.e10,
   X.e10 * Y.e01 + X.e11 * Y.e11⟩

/-- The 2x2 identity matrix; embeds damm identity. -/
def M2.id : M2 := ⟨1, 0, 0, 1⟩

instance : Mul M2 := ⟨M2.mul⟩

instance : One M2 := ⟨M2.id⟩

instance : Monoid M2 where
  mul_assoc x y z := by
    show M2.mul (M2.mul x y) z = M2.mul x (M2.mul y z)
    simp only [M2.mul, M2.mk.injEq]
    refine ⟨by ring, by ring, by ring, by ring⟩
  one_mul x := by
    show M2.mul M2.id x = x
    simp only [M2.mul, M2.id]
    cases x
    simp only [M2.mk.injEq]
    refine ⟨by ring, by ring, by ring, by ring⟩
  mul_one x := by
    show M2.mul x M2.id = x
    simp only [M2.mul, M2.id]
    cases x
    simp only [M2.mk.injEq]
    refine ⟨by ring, by ring, by ring, by ring⟩

/-- The while loop of matrix_power (tmm.h lines 155-180): on each pass,
if the low bit of n is set the accumulator is multiplied by base; n is
shifted right; base is squared whenever n remains positive. -/
def powLoop (base result : M2) (n : ℕ) : M2 :=
  if h : n = 0 then result
  else
    let result₁ := if n % 2 = 1 then result * base else result
    let n₁ := n / 2
    if n₁ = 0 then result₁
    else powLoop (base * base) result₁ n₁
termination_by n
decreasing_by exact Nat.div_lt_self (Nat.pos_of_ne_zero h) (by norm_num)

/-- Binary exponentiation of a 2x2 complex matrix, embedding matrix_power
of tmm.h: the accumulator starts at the identity, an N of zero returns the
identity immediately, otherwise the squaring loop runs. -/
def matrix_power (T : M2) (N : ℕ) : M2 :=
  if N = 0 then M2.id else powLoop T M2.id N

/-- Complex propagation constant, embedding TMM beta of tmm.h: the real
part is k0 times neff with k0 the free-space wavenumber 2 pi over the
wavelength, the imaginary part is minus half the loss coefficient. -/
noncomputable def tmm_beta (neff wavelength loss : ℝ) : ℂ :=
  ⟨2 * Real.pi / wavelength * neff, -(loss / 2)⟩

/-- Propagation matrix of a homogeneous layer, embedding
TMM homogeneous_layer of tmm.h: diagonal entries are the exponentials of
plus and minus i times beta times the layer length, off-diagonal entries
are assigned the complex zero. -/
noncomputable def homogeneous_layer (wavelength length neff loss : ℝ) : M2 :=
  let b := tmm_beta neff wavelength loss
  let phase := b * (length : ℂ)
  ⟨Complex.exp (Complex.I * phase), 0, 0, Complex.exp (-Complex.I * phase)⟩

/-- Fresnel index-step matrix, embedding TMM index_step of tmm.h: the
entries are the real Fresnel coefficients a and b at normal incidence,
computed with the real square root of the index product and no check of
its sign (a negative product puts NaN in the IEEE code; the real-number
model evaluates the square root of a negative number to zero). -/
noncomputable def index_step (n1 n2 : ℝ) : M2 :=
  let a : ℂ := ((n1 + n2) / (2 * Real.sqrt (n1 * n2)) : ℝ)
  let b : ℂ := ((n1 - n2) / (2 * Real.sqrt (n1 * n2)) : ℝ)
  ⟨a, b, b, a⟩

/-- Extraction of reflection and transmission, embedding
scattering_coefficients_db of tmm.h: R is the squared modulus of the
ratio of the lower-left to the upper-left entry, T the squared modulus of
the reciprocal of the upper-left entry. The function is total and
performs no singularity check; complex division by zero is zero in the
model where the IEEE code would produce inf or NaN. -/
noncomputable def scattering_coefficients_db (S : M2) : ℝ × ℝ :=
  (Complex.abs (S.e10 / S.e00) ^ 2, Complex.abs (1 / S.e00) ^ 2)

/-- Conversion of a double to size_t as performed implicitly at the call
matrix_power(Tp, T, _N) in bragg.cc: truncation toward zero for
non-negative values; a negative double is undefined behaviour in C++ and
is modelled as zero. -/
noncomputable def to_size_t (x : ℝ) : ℕ := (⌊x⌋).toNat

/-- Bragg grating geometry descriptor, embedding the Bragg class of
bragg.h: period, duty cycle, and period count N stored as a double. -/
structure Bragg where
  period : ℝ
  duty_cycle : ℝ
  N : ℝ

/-- Single-period transfer matrix, embedding Bragg transfer_matrix of
bragg.cc: the left-associated product of the high-index propagation
matrix, the n1-to-n2 index step, the low-index propagation matrix, and
the n2-to-n1 index step, with segment lengths period times duty cycle and
period times one minus duty cycle. -/
noncomputable def Bragg.transfer_matrix (g : Bragg)
    (wavelength n1 n2 loss : ℝ) : M2 :=
  let l1 := g.period * g.duty_cycle
  let l2 := g.period * (1 - g.duty_cycle)
  M2.mul
    (M2.mul
      (M2.mul (homogeneous_layer wavelength l1 n1 loss) (index_step n1 n2))
      (homogeneous_layer wavelength l2 n2 loss))
    (index_step n2 n1)

/-- N-period scattering matrix, embedding Bragg scattering_matrix of
bragg.cc: the single-period matrix raised to the power N, where the
stored double N passes through the implicit size_t conversion. -/
noncomputable def Bragg.scattering_matrix (g : Bragg)
    (wavelength n1 n2 loss : ℝ) : M2 :=
  matrix_power (g.transfer_matrix wavelength n1 n2 loss) (to_size_t g.N)

/-- Reflection and transmission of the grating, embedding
Bragg scattering_coefficients of bragg.cc: extraction applied to the
N-period scattering matrix, returned as the pair (R, T). -/
noncomputable def Bragg.scattering_coefficients (g : Bragg)
    (wavelength n1 n2 loss : ℝ) : ℝ × ℝ :=
  scattering_coefficients_db (g.scattering_matrix wavelength n1 n2 loss)

/-- Modelled from the spec: the four-output scattering coefficient
extraction (R, T, phase_r, phase_t) that the specification requires and
the sweep driver tmm.cc consumes, but whose implementation is missing
from the sources, which only carry the two-output
scattering_coefficients_db. Phases are the arguments of the same complex
ratios used for the magnitudes. -/
noncomputable def scattering_coefficients4 (S : M2) : ℝ × ℝ × ℝ × ℝ :=
  (Complex.abs (S.e10 / S.e00) ^ 2,
   Complex.abs (1 / S.e00) ^ 2,
   Complex.arg (S.e10 / S.e00),
   Complex.arg (1 / S.e00))

/-- The homogeneous-layer matrix as the specification words it, for
comparison with the source embedding: the diagonal matrix of the
exponentials of plus and minus i beta length, the propagation constant
beta written as 2 pi over lambda times neff minus i times half the loss,
and off-diagonal entries exactly zero. -/
noncomputable def homogeneous_layer_claimed
    (wavelength length neff loss : ℝ) : M2 :=
  let b : ℂ :=
    ((2 * Real.pi / wavelength * neff : ℝ) : ℂ) -
      ((loss / 2 : ℝ) : ℂ) * Complex.I
  ⟨Complex.exp (Complex.I * (b * (length : ℂ))), 0, 0,
   Complex.exp (-(Complex.I * (b * (length : ℂ))))⟩

/-- Taylor expansion descriptor, embedding taylor_expansion of cml.h:
a reference point x0 and an ordered coefficient list. -/
structure taylor_model where
  x0 : ℝ
  coeffs : List ℝ

/-- Evaluation loop of taylor_expansion in cml.h, parameterised by the
reduction operation: the accumulator starts at coefficient zero and each
index i from one below the coefficient count folds in coefficient i times
the offset to the power i. An empty coefficient list reads out of bounds
in the C++ source (undefined behaviour) and is modelled by a default of
zero. -/
def taylor_eval (op : ℝ → ℝ → ℝ) (m : taylor_model) (x : ℝ) : ℝ :=
  let dx := x - m.x0
  (List.range' 1 (m.coeffs.length - 1)).foldl
    (fun y i => op y (m.coeffs.getD i 0 * dx ^ i)) (m.coeffs.getD 0 0)

/-- Wavelength dispersion model, embedding wavelength_model_t of cml.h:
the Taylor evaluation with subtraction as the reduction operation. -/
def wavelength_model_eval (m : taylor_model) (x : ℝ) : ℝ :=
  taylor_eval (fun y t => y - t) m x

/-- Width dispersion model, embedding width_model_t of cml.h: the Taylor
evaluation with addition as the reduction operation. -/
def width_model_eval (m : taylor_model) (x : ℝ) : ℝ :=
  taylor_eval (fun y t => y + t) m x

/-- Compact material model, embedding the cml struct of cml.h: four
independently optional representations of one material property. -/
structure cml where
  constant : Option ℝ
  sampled : Option (List ℝ)
  wavelength_model : Option taylor_model
  width_model : Option taylor_model

/-- Evaluation of a compact material model, embedding the call operator
of cml in cml.h: the property starts at zero, is overwritten by the
constant if present, then overwritten by the sampled value at index i if
present (an out-of-range index is an unchecked vector read in the C++
source, undefined behaviour, modelled by a default of zero), then the
wavelength model at l and the width model at w are added in turn. -/
def cml_eval (m : cml) (l w : ℝ) (i : ℕ) : ℝ :=
  let p0 : ℝ := 0
  let p1 := match m.constant with
    | some c => c
    | none => p0
  let p2 := match m.sampled with
    | some s => s.getD i 0
    | none => p1
  let p3 := match m.wavelength_model with
    | some t => p2 + wavelength_model_eval t l
    | none => p2
  let p4 := match m.width_model with
    | some t => p3 + width_model_eval t w
    | none => p3
  p4

/-- Base value of a compact material model as the source computes it: the
sampled value at the index when sampled data is present (overriding any
constant), else the constant, else zero. -/
def cml_base (m : cml) (i : ℕ) : ℝ :=
  match m.sampled with
  | some s => s.getD i 0
  | none =>
    match m.constant with
    | some c => c
    | none => 0

/-- Closed form of the wavelength dispersion contribution: coefficient
zero minus the sum of the higher-order terms, contributed in full
whenever the wavelength model is present, regardless of any base. -/
def cml_wavelength_term (m : cml) (l : ℝ) : ℝ :=
  match m.wavelength_model with
  | some t =>
    t.coeffs.getD 0 0 -
      ((List.range' 1 (t.coeffs.length - 1)).map
        (fun j => t.coeffs.getD j 0 * (l - t.x0) ^ j)).sum
  | none => 0

/-- Closed form of the width dispersion contribution: coefficient zero
plus the sum of the higher-order terms, contributed in full whenever the
width model is present. -/
def cml_width_term (m : cml) (w : ℝ) : ℝ :=
  match m.width_model with
  | some t =>
    t.coeffs.getD 0 0 +
      ((List.range' 1 (t.coeffs.length - 1)).map
        (fun j => t.coeffs.getD j 0 * (w - t.x0) ^ j)).sum
  | none => 0

/-- Concrete model with a constant base of one and a wavelength model
whose zeroth coefficient is five: the input refuting the claim that the
zeroth coefficient contributes only when no constant base is present. -/
def cmlConstAndModel : cml :=
  ⟨some 1, none, some ⟨0, [5]⟩, none⟩

/-- Concrete sampled-only model with the single sample one, used to
exercise the unchecked out-of-range read. -/
def cmlSampledOne : cml :=
  ⟨none, some [1], none, none⟩

/-- The squaring loop computes the accumulator times the base raised to
the remaining exponent. -/
theorem powLoop_eq :
    ∀ (n : ℕ) (base result : M2), powLoop base result n = result * base ^ n := by
  intro n
  induction n using Nat.strong_induction_on with
  | _ n ih =>
    intro base result
    rw [powLoop]
    by_cases h0 : n = 0
    · simp [h0]
    · simp only [h0, dite_false]
      by_cases h1 : n / 2 = 0
      · have hn1 : n = 1 := by omega
        subst hn1
        simp
      · simp only [h1, if_false]
        rw [ih (n / 2) (Nat.div_lt_self (Nat.pos_of_ne_zero h0) (by norm_num))]
        have h2 : (base * base) ^ (n / 2) = base ^ (2 * (n / 2)) := by
          rw [pow_mul, sq]
        rw [h2]
        rcases Nat.mod_two_eq_zero_or_one n with hp | hp
        · rw [hp]
          simp only [if_neg (by norm_num : ¬(0 : ℕ) = 1)]
          rw [show 2 * (n / 2) = n by omega]
        · rw [hp]
          simp only [if_true]
          rw [mul_assoc, ← pow_succ', show 2 * (n / 2) + 1 = n by omega]

/-- The binary exponentiation of tmm.h agrees with the monoid power. -/
theorem matrix_power_eq_pow (T : M2) (N : ℕ) : matrix_power T N = T ^ N := by
  rw [matrix_power]
  by_cases h : N = 0
  · rw [if_pos h, h, pow_zero]
    rfl
  · rw [if_neg h, powLoop_eq]
    show (1 : M2) * T ^ N = T ^ N
    rw [one_mul]

/-- C1: for every complex 2x2 matrix T and all non-negative integers a
and b, the power of T to a plus b equals the product of the powers of T
to a and to b, and the power of T to zero is the identity for every T,
the all-zero matrix included. -/
theorem matrix_power_composition (T : M2) (a b : ℕ) :
    matrix_power T (a + b) = M2.mul (matrix_power T a) (matrix_power T b) ∧
    matrix_power T 0 = M2.id := by
  constructor
  · rw [matrix_power_eq_pow, matrix_power_eq_pow, matrix_power_eq_pow, pow_add]
    rfl
  · rw [matrix_power, if_pos rfl]

/-- C2: a Bragg grating constructed with N equal to zero reports
transmission one and reflection zero at every wavelength and for all
indices with positive product, the scattering matrix being the identity
regardless of the single-period matrix. -/
theorem bragg_N_zero_identity_scattering
    (period dc wavelength n1 n2 loss : ℝ) (h : 0 < n1 * n2) :
    (Bragg.mk period dc 0).scattering_coefficients wavelength n1 n2 loss =
      (0, 1) := by
  unfold Bragg.scattering_coefficients Bragg.scattering_matrix
  have hN : to_size_t (Bragg.mk period dc 0).N = 0 := by
    show to_size_t (0 : ℝ) = 0
    unfold to_size_t
    norm_num
  rw [hN, matrix_power, if_pos rfl]
  simp [scattering_coefficients_db, M2.id]

/-- Witness for C2 at period one, duty cycle one half, wavelength one,
both indices one and zero loss. -/
theorem bragg_N_zero_identity_scattering_witness :
    (0 : ℝ) < 1 * 1 ∧
      (Bragg.mk 1 (1 / 2) 0).scattering_coefficients 1 1 1 0 = (0, 1) :=
  ⟨by norm_num,
   bragg_N_zero_identity_scattering 1 (1 / 2) 1 1 1 0 (by norm_num)⟩

/-- C5: the homogeneous layer matrix equals the claimed diagonal matrix
of exponentials of plus and minus i beta length with beta as in the
claim, the off-diagonal entries being exactly zero, and with zero loss
both diagonal entries have modulus one. -/
theorem homogeneous_layer_spec (wavelength length neff loss : ℝ)
    (h : 0 < wavelength) :
    homogeneous_layer wavelength length neff loss =
      homogeneous_layer_claimed wavelength length neff loss ∧
    (loss = 0 →
      Complex.abs (homogeneous_layer wavelength length neff loss).e00 = 1 ∧
      Complex.abs (homogeneous_layer wavelength length neff loss).e11 = 1) := by
  have hb : tmm_beta neff wavelength loss =
      ((2 * Real.pi / wavelength * neff : ℝ) : ℂ) -
        ((loss / 2 : ℝ) : ℂ) * Complex.I := by
    apply Complex.ext <;>
      simp [tmm_beta, Complex.sub_re, Complex.sub_im, Complex.mul_re,
        Complex.mul_im, Complex.I_re, Complex.I_im, Complex.ofReal_re,
        Complex.ofReal_im]
  constructor
  · simp only [homogeneous_layer, homogeneous_layer_claimed]
    rw [hb, neg_mul]
  · intro hl
    subst hl
    have hre : (tmm_beta neff wavelength 0 * (length : ℂ)).im = 0 := by
      simp [tmm_beta, Complex.mul_im, Complex.ofReal_re, Complex.ofReal_im]
    constructor
    · simp only [homogeneous_layer]
      rw [Complex.abs_exp]
      simp [Complex.mul_re, Complex.I_re, Complex.I_im, hre]
    · simp only [homogeneous_layer]
      rw [Complex.abs_exp]
      simp [Complex.neg_re, Complex.mul_re, Complex.I_re, Complex.I_im, hre]

/-- Witness for C5 at wavelength one, length one, index one, loss zero. -/
theorem homogeneous_layer_spec_witness :
    (0 : ℝ) < 1 ∧
      (homogeneous_layer 1 1 1 0 = homogeneous_layer_claimed 1 1 1 0 ∧
       ((0 : ℝ) = 0 →
         Complex.abs (homogeneous_layer 1 1 1 0).e00 = 1 ∧
         Complex.abs (homogeneous_layer 1 1 1 0).e11 = 1)) :=
  ⟨by norm_num, homogeneous_layer_spec 1 1 1 0 (by norm_num)⟩

/-- C3 (code bug): the coefficient extraction of the sources computes
exactly the first two of the four required outputs, the reflection and
transmission magnitudes of the spec-modelled four-output extraction, and
omits the two phases. -/
theorem scattering_coefficients_arity_two (S : M2) :
    scattering_coefficients_db S =
      ((scattering_coefficients4 S).1, (scattering_coefficients4 S).2.1) :=
  rfl

/-- A left fold of subtractions equals the starting value minus the sum
of the mapped list. -/
theorem foldl_sub_eq (f : ℕ → ℝ) (L : List ℕ) :
    ∀ init : ℝ, L.foldl (fun y i => y - f i) init = init - (L.map f).sum := by
  induction L with
  | nil => intro init; simp
  | cons a t ih =>
    intro init
    rw [List.foldl_cons, ih, List.map_cons, List.sum_cons]
    ring

/-- A left fold of additions equals the starting value plus the sum of
the mapped list. -/
theorem foldl_add_eq (f : ℕ → ℝ) (L : List ℕ) :
    ∀ init : ℝ, L.foldl (fun y i => y + f i) init = init + (L.map f).sum := by
  induction L with
  | nil => intro init; simp
  | cons a t ih =>
    intro init
    rw [List.foldl_cons, ih, List.map_cons, List.sum_cons]
    ring

/-- Closed form of the wavelength dispersion evaluation: coefficient zero
minus the sum of the higher-order terms. -/
theorem wavelength_model_eval_closed (t : taylor_model) (x : ℝ) :
    wavelength_model_eval t x =
      t.coeffs.getD 0 0 -
        ((List.range' 1 (t.coeffs.length - 1)).map
          (fun j => t.coeffs.getD j 0 * (x - t.x0) ^ j)).sum := by
  simp only [wavelength_model_eval, taylor_eval]
  exact foldl_sub_eq (fun j => t.coeffs.getD j 0 * (x - t.x0) ^ j) _ _

/-- Closed form of the width dispersion evaluation: coefficient zero plus
the sum of the higher-order terms. -/
theorem width_model_eval_closed (t : taylor_model) (x : ℝ) :
    width_model_eval t x =
      t.coeffs.getD 0 0 +
        ((List.range' 1 (t.coeffs.length - 1)).map
          (fun j => t.coeffs.getD j 0 * (x - t.x0) ^ j)).sum := by
  simp only [width_model_eval, taylor_eval]
  exact foldl_add_eq (fun j => t.coeffs.getD j 0 * (x - t.x0) ^ j) _ _

/-- C4 counterexample: with a constant base of one and a wavelength model
of zeroth coefficient five and no higher-order terms, evaluation returns
six, not the one the claim predicts when the zeroth coefficient is to
contribute only in the absence of a constant base. -/
theorem cml_coeff0_always_added_counterexample :
    cml_eval cmlConstAndModel 0 0 0 = 6 ∧
      cml_eval cmlConstAndModel 0 0 0 ≠ 1 := by
  have h6 : cml_eval cmlConstAndModel 0 0 0 = 6 := by
    simp [cml_eval, cmlConstAndModel, wavelength_model_eval, taylor_eval]
    norm_num
  refine ⟨h6, ?_⟩
  rw [h6]
  norm_num

/-- C4 amended: evaluation computes the base first (the sampled value at
the index when sampled data is present, overriding any constant, else
the constant, else zero), then adds the full wavelength term, the zeroth
coefficient included whether or not a base is present, minus the
higher-order terms, then adds the width term. -/
theorem cml_eval_decomposition (m : cml) (l w : ℝ) (i : ℕ) :
    cml_eval m l w i =
      cml_base m i + cml_wavelength_term m l + cml_width_term m w := by
  rcases m with ⟨c, s, wm, wd⟩
  simp only [cml_eval, cml_base, cml_wavelength_term, cml_width_term]
  cases s <;> cases c <;> cases wm <;> cases wd <;>
    simp [wavelength_model_eval_closed, width_model_eval_closed] <;> ring

/-- C6 (code bug): index_step performs no validation of the index
product: at n1 equal to minus one and n2 equal to one, whose product is
non-positive, it returns a matrix rather than signalling
InvalidRefractiveIndexProduct; in the real-number model the square root
of the negative product collapses to zero and every entry to zero, where
the IEEE source silently fills the matrix with NaN. -/
theorem index_step_nonpositive_product_returns_matrix :
    index_step (-1) 1 = ⟨0, 0, 0, 0⟩ := by
  unfold index_step
  have h : Real.sqrt (-1 : ℝ) = 0 := Real.sqrt_eq_zero'.mpr (by norm_num)
  simp [h]

/-- C7 (code bug): with a zero upper-left entry the extraction divides
by zero and returns values instead of signalling
SingularScatteringMatrix: in the real-number model both outputs are
zero, in the IEEE source they are inf or NaN. -/
theorem scattering_db_singular_returns_junk (b c d : ℂ) :
    scattering_coefficients_db ⟨0, b, c, d⟩ = (0, 0) := by
  simp [scattering_coefficients_db]

/-- C8 (code bug): a fractional period count raises no error and is
silently truncated by the double-to-size_t conversion: the grating with
N equal to five halves produces the same scattering matrix as the
grating with N equal to two, at every wavelength and every pair of
indices. -/
theorem bragg_fractional_N_truncated (wavelength n1 n2 loss : ℝ) :
    (Bragg.mk 1 (1 / 2) (5 / 2)).scattering_matrix wavelength n1 n2 loss =
      (Bragg.mk 1 (1 / 2) 2).scattering_matrix wavelength n1 n2 loss := by
  unfold Bragg.scattering_matrix
  have h1 : to_size_t (Bragg.mk 1 (1 / 2) (5 / 2)).N = 2 := by
    show to_size_t (5 / 2 : ℝ) = 2
    unfold to_size_t
    rw [show ⌊(5 / 2 : ℝ)⌋ = 2 from by
      rw [Int.floor_eq_iff] <;> norm_num]
    rfl
  have h2 : to_size_t (Bragg.mk 1 (1 / 2) 2).N = 2 := by
    show to_size_t (2 : ℝ) = 2
    unfold to_size_t
    have hf : ⌊(2 : ℝ)⌋ = 2 := by norm_num
    rw [hf]
    rfl
  rw [h1, h2]
  rfl

/-- C9 (code bug): the sampled-only model returns the stored sample for
an in-range index, but an out-of-range index performs an unchecked
vector read (undefined behaviour in the source, the model default of
zero here) rather than raising SampleIndexOutOfRange. -/
theorem cml_sampled_out_of_range_no_error :
    cml_eval cmlSampledOne 0 0 0 = 1 ∧ cml_eval cmlSampledOne 0 0 1 = 0 := by
  constructor <;> simp [cml_eval, cmlSampledOne]

/-- C10: a compact material model in which none of the four
representations is present evaluates to exactly zero for every
wavelength, width and sample index. -/
theorem cml_empty_eval_zero (l w : ℝ) (i : ℕ) :
    cml_eval ⟨none, none, none, none⟩ l w i = 0 :=
  rfl

end TmmSpec
